import Mathlib

/-!
Shallow embedding of `src/examples/generic_processor.py`.

The source is a single function:

  def generic_processor(map_func, result_func, outpath, paths, batch_size=1000):
      f = bz2.BZ2File(outpath, "w")
      n = 0
      m = math.ceil(float(len(paths))/batch_size)
      logging.info("Script started")
      while (True):
          start = time.time()
          batch, paths = (paths[:batch_size], paths[batch_size:])
          n += 1
          logging.info(...)
          feature_reader = FeatureReader(batch)
          results = feature_reader.multiprocessing(map_func)
          result_func(results, f)
          logging.info(...); logging.debug(... os.stat(outpath) ...)
          if len(paths) == 0:
              break
      logging.info("Script done")
      f.close()

The loop is a post-test loop (`while True ... if len(paths) == 0: break`): it
always executes at least one iteration, slices the first `batch_size` elements
off the front of `paths` each iteration, and only tests emptiness of the
remainder after processing the batch.  The embedding models this loop with
explicit fuel (`none` = the fuel was exhausted before the loop exited, which on
the real machine corresponds to the loop still running).  Different facets of
the same loop are embedded by definitions that expose different observations:
the list of batches taken (`loopBatches`), the event trace of sink and
parallel-map operations (`procTrace`), the sink contents under a fallible
mapping function (`runBatches`), the sink contents plus log lines including
the output path (`loopRunLog`), and the program state including the caller's
list object (`genericProcessorState`).  Each definition follows the source
line for line; the parallel-map collaborator `FeatureReader.multiprocessing`
is modelled as applying `map_func` to every element of the batch (as its
contract requires), returning `Except` when fallibility matters.
-/

namespace GenericProcessor

variable {α β σ ε : Type}

/-- Observable events of one run: the sink being opened (`bz2.BZ2File(outpath,
"w")`, line 13), the parallel map for (1-based) batch `n` being dispatched
(`feature_reader.multiprocessing(map_func)`, line 26), `result_func` being
invoked with batch `n`'s result collection and the open sink (line 27) — the
only place the sink is written — and the sink being closed (`f.close()`,
line 40). -/
inductive Ev (β : Type) : Type where
  | openSink : Ev β
  | dispatch : Nat → Ev β
  | reduceCall : Nat → List β → Ev β
  | closeSink : Ev β

/-- Discriminator for the sink-opening event. -/
def Ev.isOpen : Ev β → Bool
  | Ev.openSink => true
  | _ => false

/-- Discriminator for the sink-closing event. -/
def Ev.isClose : Ev β → Bool
  | Ev.closeSink => true
  | _ => false

/-- Discriminator for sink-write events: the sink is written only inside the
`result_func(results, f)` call, once per batch. -/
def Ev.isWrite : Ev β → Bool
  | Ev.reduceCall _ _ => true
  | _ => false

/-- The sequence of batches taken by the loop of `generic_processor`
(lines 19-37).  Each iteration computes
`batch, paths = (paths[:batch_size], paths[batch_size:])` — `List.take` and
`List.drop` — processes `batch`, and exits only if the remainder is empty
after the slice.  Fuel bounds the number of iterations; `none` means the loop
had not exited within `fuel` iterations. -/
def loopBatches (batch_size : Nat) : Nat → List α → Option (List (List α))
  | 0, _ => none
  | fuel + 1, paths =>
    let batch := paths.take batch_size
    let rest := paths.drop batch_size
    if rest.isEmpty then some [batch]
    else (loopBatches batch_size fuel rest).map (fun bs => batch :: bs)

/-- Event trace of the loop body, starting after `n` batches have already been
processed (the source's counter `n`, incremented at line 22 before the batch
is processed, so the events of the next batch carry index `n + 1`).  Each
iteration dispatches the parallel map for the current batch and then calls
`result_func` with the batch's result collection. -/
def loopTrace (map_func : α → β) (batch_size : Nat) :
    Nat → Nat → List α → Option (List (Ev β))
  | 0, _, _ => none
  | fuel + 1, n, paths =>
    let batch := paths.take batch_size
    let rest := paths.drop batch_size
    let evs := [Ev.dispatch (n + 1), Ev.reduceCall (n + 1) (batch.map map_func)]
    if rest.isEmpty then some evs
    else (loopTrace map_func batch_size fuel (n + 1) rest).map (fun t => evs ++ t)

/-- Full event trace of `generic_processor`: the sink is opened (line 13)
before the loop runs, and closed (line 40) after the loop exits. -/
def procTrace (map_func : α → β) (batch_size fuel : Nat) (paths : List α) :
    Option (List (Ev β)) :=
  (loopTrace map_func batch_size fuel 0 paths).map
    (fun t => Ev.openSink :: (t ++ [Ev.closeSink]))

/-- The trace generated by a given batch list, starting at counter `n`: for
each batch, a dispatch event then a reduce-call event, with 1-based indices. -/
def traceOf (map_func : α → β) : Nat → List (List α) → List (Ev β)
  | _, [] => []
  | n, b :: bs =>
    Ev.dispatch (n + 1) :: Ev.reduceCall (n + 1) (b.map map_func) ::
      traceOf map_func (n + 1) bs

/-- Sink contents computed by the loop when the mapping function is total:
each iteration maps `map_func` over the batch (the parallel-map collaborator's
contract) and folds the result collection into the sink via `result_func`. -/
def loopReduce (map_func : α → β) (result_func : List β → σ → σ)
    (batch_size : Nat) : Nat → List α → σ → Option σ
  | 0, _, _ => none
  | fuel + 1, paths, sink =>
    let batch := paths.take batch_size
    let rest := paths.drop batch_size
    let sink1 := result_func (batch.map map_func) sink
    if rest.isEmpty then some sink1
    else loopReduce map_func result_func batch_size fuel rest sink1

/-- The loop under a fallible mapping function.  If `map_func` fails on any
record of the current batch, the parallel map raises; `generic_processor` has
no try/except, so the error propagates immediately: the run ends with
`Except.error (e, sink)` where `sink` is the contents written by the
`result_func` calls of the previously completed batches.  On success the final
sink contents are returned. -/
def runBatches (map_func : α → Except ε β) (result_func : List β → σ → σ)
    (batch_size : Nat) : Nat → List α → σ → Option (Except (ε × σ) σ)
  | 0, _, _ => none
  | fuel + 1, paths, sink =>
    let batch := paths.take batch_size
    let rest := paths.drop batch_size
    match batch.mapM map_func with
    | Except.error e => some (Except.error (e, sink))
    | Except.ok results =>
      let sink1 := result_func results sink
      if rest.isEmpty then some (Except.ok sink1)
      else runBatches map_func result_func batch_size fuel rest sink1

/-- Sink contents after the `result_func` calls of the first `k` batches,
where batch `j` (0-based) produced result collection `rs j`. -/
def foldSink (result_func : List β → σ → σ) (rs : Nat → List β) :
    Nat → σ → σ
  | 0, sink => sink
  | k + 1, sink => result_func (rs k) (foldSink result_func rs k sink)

/-- The loop together with its log output.  The log models the
`logging.info`/`logging.debug` calls; the debug line (line 31-33) reads
`os.stat(outpath)`, so `outpath` appears in the log, but the data written to
the sink never depends on `outpath`. -/
def loopRunLog (map_func : α → β) (result_func : List β → σ → σ)
    (outpath : String) (batch_size : Nat) :
    Nat → Nat → List α → σ → List String → Option (σ × List String)
  | 0, _, _, _, _ => none
  | fuel + 1, n, paths, sink, log =>
    let batch := paths.take batch_size
    let rest := paths.drop batch_size
    let log1 := log ++ ["Starting batch " ++ toString (n + 1)]
    let sink1 := result_func (batch.map map_func) sink
    let log2 := log1 ++ ["Output filesize of " ++ outpath]
    if rest.isEmpty then some (sink1, log2)
    else loopRunLog map_func result_func outpath batch_size fuel (n + 1) rest sink1 log2

/-- Whole run of `generic_processor` at output path `outpath`, returning the
final sink contents (the decompressed byte content of the output file, whose
structure is entirely determined by `result_func`) and the log.  `init` is the
sink state produced by opening `outpath` in write/truncate mode: the same
(empty) state whatever the path. -/
def processorRun (map_func : α → β) (result_func : List β → σ → σ)
    (outpath : String) (paths : List α) (batch_size fuel : Nat) (init : σ) :
    Option (σ × List String) :=
  loopRunLog map_func result_func outpath batch_size fuel 0 paths init
    ["Script started"]

/-- Program state visible across the call: the caller's list object and the
sink.  `generic_processor` receives a reference to the caller's list; the only
operations the source applies to it are the slices at line 21, which build
fresh lists, and the rebinding of the local name `paths`, which does not touch
the caller's object. -/
structure ProcState (α σ : Type) : Type where
  callerPaths : List α
  sink : σ

/-- State-level model of `generic_processor`: the local variable `paths` is
initialised from the caller's list, the loop rebinds only the local, and the
caller's list object is never mutated. -/
def genericProcessorState (map_func : α → β) (result_func : List β → σ → σ)
    (batch_size fuel : Nat) (st : ProcState α σ) : Option (ProcState α σ) :=
  (loopReduce map_func result_func batch_size fuel st.callerPaths st.sink).map
    (fun s => ⟨st.callerPaths, s⟩)

/-! ### Helper lemmas -/

theorem loopBatches_flatten (batch_size fuel : Nat) (paths : List α)
    (bs : List (List α)) (h : loopBatches batch_size fuel paths = some bs) :
    bs.flatten = paths := by
  induction fuel generalizing paths bs with
  | zero => simp [loopBatches] at h
  | succ fuel ih =>
    simp only [loopBatches] at h
    by_cases hr : (paths.drop batch_size).isEmpty
    · rw [if_pos hr] at h
      obtain rfl : bs = [paths.take batch_size] := (Option.some_inj.mp h).symm
      have hd : paths.drop batch_size = [] := List.isEmpty_iff.mp hr
      have ht := List.take_append_drop batch_size paths
      rw [hd, List.append_nil] at ht
      simp [ht]
    · rw [if_neg hr] at h
      obtain ⟨bs1, hbs1, rfl⟩ := Option.map_eq_some'.mp h
      have := ih (paths.drop batch_size) bs1 hbs1
      simp only [List.flatten_cons, this, List.take_append_drop]

theorem loopBatches_zero_eq_none (fuel : Nat) (paths : List α)
    (h : paths ≠ []) : loopBatches 0 fuel paths = none := by
  induction fuel with
  | zero => rfl
  | succ fuel ih =>
    simp only [loopBatches, List.take_zero, List.drop_zero]
    rw [if_neg (by simpa [List.isEmpty_iff] using h), ih]
    rfl

theorem loopBatches_isSome (batch_size fuel : Nat) (paths : List α)
    (hB : 0 < batch_size) (hfuel : paths.length < fuel) :
    (loopBatches batch_size fuel paths).isSome = true := by
  induction fuel generalizing paths with
  | zero => omega
  | succ fuel ih =>
    simp only [loopBatches]
    by_cases hr : (paths.drop batch_size).isEmpty
    · simp [hr]
    · rw [if_neg hr, Option.isSome_map']
      have h1 : paths.drop batch_size ≠ [] := by
        simpa [List.isEmpty_iff] using hr
      have h2 : ¬ (paths.length ≤ batch_size) :=
        fun hc => h1 (List.drop_eq_nil_iff.mpr hc)
      exact ih (paths.drop batch_size) (by rw [List.length_drop]; omega)

theorem loopBatches_shape (batch_size fuel : Nat) (paths : List α)
    (bs : List (List α)) (hB : 0 < batch_size) (hne : paths ≠ [])
    (h : loopBatches batch_size fuel paths = some bs) :
    bs.length = (paths.length + batch_size - 1) / batch_size ∧
      (bs.map List.length).sum = paths.length ∧
      (∀ b ∈ bs.dropLast, b.length = batch_size) ∧
      bs.getLast?.map List.length =
        some (if paths.length % batch_size = 0 then batch_size
          else paths.length % batch_size) := by
  induction fuel generalizing paths bs with
  | zero => simp [loopBatches] at h
  | succ fuel ih =>
    simp only [loopBatches] at h
    by_cases hr : (paths.drop batch_size).isEmpty
    · rw [if_pos hr] at h
      obtain rfl : bs = [paths.take batch_size] := (Option.some_inj.mp h).symm
      have hd : paths.drop batch_size = [] := List.isEmpty_iff.mp hr
      have hle : paths.length ≤ batch_size := List.drop_eq_nil_iff.mp hd
      have htake : paths.take batch_size = paths := List.take_of_length_le hle
      have hpos : 0 < paths.length := List.length_pos.mpr hne
      refine ⟨?_, ?_, ?_, ?_⟩
      · have e1 : paths.length + batch_size - 1 =
            (paths.length - 1) + batch_size := by omega
        rw [e1, Nat.add_div_right _ hB, Nat.div_eq_of_lt (by omega)]
        rfl
      · simp [htake]
      · simp
      · rw [htake]
        simp only [List.getLast?_singleton, Option.map_some']
        rcases Nat.lt_or_ge paths.length batch_size with hlt | hge
        · rw [if_neg (by rw [Nat.mod_eq_of_lt hlt]; omega),
            Nat.mod_eq_of_lt hlt]
        · have heq : paths.length = batch_size := le_antisymm hle hge
          rw [heq, Nat.mod_self, if_pos rfl]
    · rw [if_neg hr] at h
      obtain ⟨bs1, hbs1, rfl⟩ := Option.map_eq_some'.mp h
      have hrest : paths.drop batch_size ≠ [] := by
        simpa [List.isEmpty_iff] using hr
      have hlt : batch_size < paths.length := by
        by_contra hc
        push_neg at hc
        exact hrest (List.drop_eq_nil_iff.mpr hc)
      obtain ⟨ih1, ih2, ih3, ih4⟩ := ih (paths.drop batch_size) bs1 hrest hbs1
      rw [List.length_drop] at ih1 ih2 ih4
      have hbl : (paths.take batch_size).length = batch_size := by
        rw [List.length_take]; omega
      cases bs1 with
      | nil => simp at ih4
      | cons b1 bs2 =>
        refine ⟨?_, ?_, ?_, ?_⟩
        · have e1 : paths.length - batch_size + batch_size - 1 =
              paths.length - 1 := by omega
          have e2 : paths.length + batch_size - 1 =
              (paths.length - 1) + batch_size := by omega
          show (b1 :: bs2).length + 1 = _
          rw [ih1, e1, e2, Nat.add_div_right _ hB]
        · show (paths.take batch_size).length +
            (List.map List.length (b1 :: bs2)).sum = _
          rw [hbl, ih2]
          omega
        · intro b hb
          have hb2 : b = paths.take batch_size ∨ b ∈ (b1 :: bs2).dropLast := by
            simpa using hb
          rcases hb2 with rfl | hb2
          · exact hbl
          · exact ih3 b hb2
        · rw [List.getLast?_cons_cons, ih4,
            Nat.mod_eq_sub_mod (le_of_lt hlt)]

theorem loopTrace_eq_traceOf (map_func : α → β) (batch_size fuel : Nat)
    (paths : List α) (bs : List (List α)) (n : Nat)
    (h : loopBatches batch_size fuel paths = some bs) :
    loopTrace map_func batch_size fuel n paths =
      some (traceOf map_func n bs) := by
  induction fuel generalizing paths bs n with
  | zero => simp [loopBatches] at h
  | succ fuel ih =>
    simp only [loopBatches] at h
    simp only [loopTrace]
    by_cases hr : (paths.drop batch_size).isEmpty
    · rw [if_pos hr] at h
      obtain rfl : bs = [paths.take batch_size] := (Option.some_inj.mp h).symm
      rw [if_pos hr]
      rfl
    · rw [if_neg hr] at h
      obtain ⟨bs1, hbs1, rfl⟩ := Option.map_eq_some'.mp h
      rw [if_neg hr, ih (paths.drop batch_size) bs1 (n + 1) hbs1]
      rfl

theorem traceOf_countP_isOpen (map_func : α → β) (n : Nat)
    (bs : List (List α)) :
    (traceOf map_func n bs).countP Ev.isOpen = 0 := by
  induction bs generalizing n with
  | nil => rfl
  | cons b bs ih => simp [traceOf, List.countP_cons, Ev.isOpen, ih]

theorem traceOf_countP_isClose (map_func : α → β) (n : Nat)
    (bs : List (List α)) :
    (traceOf map_func n bs).countP Ev.isClose = 0 := by
  induction bs generalizing n with
  | nil => rfl
  | cons b bs ih => simp [traceOf, List.countP_cons, Ev.isClose, ih]

theorem traceOf_countP_isWrite (map_func : α → β) (n : Nat)
    (bs : List (List α)) :
    (traceOf map_func n bs).countP Ev.isWrite = bs.length := by
  induction bs generalizing n with
  | nil => rfl
  | cons b bs ih => simp [traceOf, List.countP_cons, Ev.isWrite, ih]

theorem loopBatches_batch_ne_nil (batch_size fuel : Nat) (paths : List α)
    (bs : List (List α)) (hB : 0 < batch_size) (hne : paths ≠ [])
    (h : loopBatches batch_size fuel paths = some bs) :
    ∀ b ∈ bs, b ≠ [] := by
  induction fuel generalizing paths bs with
  | zero => simp [loopBatches] at h
  | succ fuel ih =>
    simp only [loopBatches] at h
    have htake : paths.take batch_size ≠ [] := by
      rw [Ne, List.take_eq_nil_iff]
      push_neg
      exact ⟨by omega, hne⟩
    by_cases hr : (paths.drop batch_size).isEmpty
    · rw [if_pos hr] at h
      obtain rfl : bs = [paths.take batch_size] := (Option.some_inj.mp h).symm
      intro b hb
      rw [List.mem_singleton] at hb
      exact hb ▸ htake
    · rw [if_neg hr] at h
      obtain ⟨bs1, hbs1, rfl⟩ := Option.map_eq_some'.mp h
      have hrest : paths.drop batch_size ≠ [] := by
        simpa [List.isEmpty_iff] using hr
      intro b hb
      rcases List.mem_cons.mp hb with rfl | hb1
      · exact htake
      · exact ih (paths.drop batch_size) bs1 hrest hbs1 b hb1

theorem loopTrace_dispatch_pos (map_func : α → β) (batch_size fuel : Nat) :
    ∀ (n : Nat) (paths : List α) (tr : List (Ev β)) (i k : Nat),
      loopTrace map_func batch_size fuel n paths = some tr →
      tr[i]? = some (Ev.dispatch k) → 2 * k = i + 2 * n + 2 := by
  induction fuel with
  | zero => intro n paths tr i k h; simp [loopTrace] at h
  | succ fuel ih =>
    intro n paths tr i k h hi
    simp only [loopTrace] at h
    by_cases hr : (paths.drop batch_size).isEmpty
    · rw [if_pos hr] at h
      obtain rfl : tr = _ := (Option.some_inj.mp h).symm
      rcases i with _ | i
      · simp at hi; omega
      · rcases i with _ | i
        · simp at hi
        · simp at hi
    · rw [if_neg hr] at h
      obtain ⟨tr1, htr1, rfl⟩ := Option.map_eq_some'.mp h
      simp only [List.cons_append, List.nil_append] at hi
      rcases i with _ | i
      · simp at hi; omega
      · rcases i with _ | i
        · simp at hi
        · rw [List.getElem?_cons_succ, List.getElem?_cons_succ] at hi
          have := ih (n + 1) (paths.drop batch_size) tr1 i k htr1 hi
          omega

theorem loopTrace_reduce_pos (map_func : α → β) (batch_size fuel : Nat) :
    ∀ (n : Nat) (paths : List α) (tr : List (Ev β)) (i k : Nat)
      (rs : List β),
      loopTrace map_func batch_size fuel n paths = some tr →
      tr[i]? = some (Ev.reduceCall k rs) → 2 * k = i + 2 * n + 1 := by
  induction fuel with
  | zero => intro n paths tr i k rs h; simp [loopTrace] at h
  | succ fuel ih =>
    intro n paths tr i k rs h hi
    simp only [loopTrace] at h
    by_cases hr : (paths.drop batch_size).isEmpty
    · rw [if_pos hr] at h
      obtain rfl : tr = _ := (Option.some_inj.mp h).symm
      rcases i with _ | i
      · simp at hi
      · rcases i with _ | i
        · simp at hi; omega
        · simp at hi
    · rw [if_neg hr] at h
      obtain ⟨tr1, htr1, rfl⟩ := Option.map_eq_some'.mp h
      simp only [List.cons_append, List.nil_append] at hi
      rcases i with _ | i
      · simp at hi
      · rcases i with _ | i
        · simp at hi; omega
        · rw [List.getElem?_cons_succ, List.getElem?_cons_succ] at hi
          have := ih (n + 1) (paths.drop batch_size) tr1 i k rs htr1 hi
          omega

theorem getElem?_concat_cases {γ : Type} (l : List γ) (a x : γ) (n : Nat)
    (h : (l ++ [a])[n]? = some x) : l[n]? = some x ∨ x = a := by
  rcases Nat.lt_or_ge n l.length with hn | hn
  · left
    rwa [List.getElem?_append_left hn] at h
  · right
    rw [List.getElem?_append_right hn] at h
    rcases hm : n - l.length with _ | m
    · rw [hm] at h
      simp at h
      exact h.symm
    · rw [hm] at h
      simp at h

theorem foldSink_shift (result_func : List β → σ → σ) (rs : Nat → List β)
    (k : Nat) (s : σ) :
    foldSink result_func (fun j => rs (j + 1)) k (result_func (rs 0) s) =
      foldSink result_func rs (k + 1) s := by
  induction k with
  | zero => rfl
  | succ k ih =>
    show result_func (rs (k + 1)) _ = result_func (rs (k + 1)) _
    rw [ih]

theorem loopRunLog_fst_independent (map_func : α → β)
    (result_func : List β → σ → σ) (p1 p2 : String) (batch_size fuel : Nat) :
    ∀ (n : Nat) (paths : List α) (sink : σ) (log1 log2 : List String),
      (loopRunLog map_func result_func p1 batch_size fuel n paths sink
          log1).map Prod.fst =
        (loopRunLog map_func result_func p2 batch_size fuel n paths sink
          log2).map Prod.fst := by
  induction fuel with
  | zero => intro n paths sink log1 log2; rfl
  | succ fuel ih =>
    intro n paths sink log1 log2
    simp only [loopRunLog]
    by_cases hr : (paths.drop batch_size).isEmpty
    · rw [if_pos hr, if_pos hr]
      rfl
    · rw [if_neg hr, if_neg hr]
      exact ih (n + 1) (paths.drop batch_size) _ _ _

/-! ### Claim theorems -/

/-- C1 (amended): for every non-empty identifier list of length `L` and every
batch size `B > 0`, the loop produces exactly `⌈L/B⌉` batches whose lengths
sum to `L`; every batch except possibly the last has length `B`, and the last
has length `B` when `B` divides `L` (no extra empty batch) and `L % B`
otherwise.  The original claim quantified over all lists including the empty
one, where it fails (see the counterexample): at `L = 0` the post-test loop
still takes one empty batch, so the batch count is `1`, not `⌈0/B⌉ = 0`. -/
theorem c1_batch_sizes (batch_size fuel : Nat) (paths : List α)
    (bs : List (List α)) (hB : 0 < batch_size) (hne : paths ≠ [])
    (h : loopBatches batch_size fuel paths = some bs) :
    bs.length = (paths.length + batch_size - 1) / batch_size ∧
      (bs.map List.length).sum = paths.length ∧
      bs.dropLast.all (fun b => b.length == batch_size) = true ∧
      bs.getLast?.map List.length =
        some (if paths.length % batch_size = 0 then batch_size
          else paths.length % batch_size) := by
  obtain ⟨h1, h2, h3, h4⟩ :=
    loopBatches_shape batch_size fuel paths bs hB hne h
  refine ⟨h1, h2, ?_, h4⟩
  rw [List.all_eq_true]
  intro b hb
  exact beq_iff_eq.mpr (h3 b hb)

/-- Witness for C1 at `paths = [1, 2, 3]`, `batch_size = 2`: two batches,
`[[1, 2], [3]]`, lengths summing to 3, final batch of length `3 % 2 = 1`. -/
theorem c1_batch_sizes_witness :
    ([[1, 2], [3]] : List (List Nat)).length = (3 + 2 - 1) / 2 ∧
      (([[1, 2], [3]] : List (List Nat)).map List.length).sum = 3 ∧
      ([[1, 2], [3]] : List (List Nat)).dropLast.all
        (fun b => b.length == 2) = true ∧
      ([[1, 2], [3]] : List (List Nat)).getLast?.map List.length =
        some (if 3 % 2 = 0 then 2 else 3 % 2) :=
  c1_batch_sizes 2 2 [1, 2, 3] [[1, 2], [3]] (by decide) (by decide) rfl

/-- Counterexample to C1 as stated: at the empty list with `batch_size = 1`
the loop exits after one iteration having taken a single empty batch, so the
number of batches is `1`, while `⌈L/B⌉ = (0 + 1 - 1) / 1 = 0`. -/
theorem c1_empty_list_counterexample :
    loopBatches 1 1 ([] : List Nat) = some [[]] ∧
      ([[]] : List (List Nat)).length ≠
        (([] : List Nat).length + 1 - 1) / 1 :=
  ⟨rfl, by decide⟩

/-- C2: for every identifier list, the batches taken by `generic_processor`
form a contiguous, order-preserving partition of the input: whenever the loop
exits (with any batch size), the concatenation of the batches, in processing
order, equals the original list — hence every identifier lands in exactly one
batch and batch order matches input order. -/
theorem c2_contiguous_partition (batch_size fuel : Nat) (paths : List α)
    (bs : List (List α)) (h : loopBatches batch_size fuel paths = some bs) :
    bs.flatten = paths :=
  loopBatches_flatten batch_size fuel paths bs h

/-- Witness for C2 at `paths = [1, 2, 3]`, `batch_size = 2`. -/
theorem c2_contiguous_partition_witness :
    loopBatches 2 2 ([1, 2, 3] : List Nat) = some [[1, 2], [3]] ∧
      ([[1, 2], [3]] : List (List Nat)).flatten = [1, 2, 3] :=
  ⟨rfl, c2_contiguous_partition 2 2 [1, 2, 3] [[1, 2], [3]] rfl⟩

/-- C9: with `batch_size = 0` and a non-empty list the loop never makes
progress (`paths[0:]` is the whole list), so no amount of fuel makes it exit —
`generic_processor` diverges; with any positive batch size the loop exits
within `length + 1` iterations. -/
theorem c9_termination (batch_size : Nat) (paths : List α) :
    (paths ≠ [] → ∀ fuel, loopBatches 0 fuel paths = none) ∧
      (0 < batch_size →
        (loopBatches batch_size (paths.length + 1) paths).isSome = true) :=
  ⟨fun h fuel => loopBatches_zero_eq_none fuel paths h,
   fun hB => loopBatches_isSome batch_size (paths.length + 1) paths hB
     (Nat.lt_succ_self _)⟩

/-- Witness for C9 at `paths = [1, 2, 3]`: 37 iterations of fuel do not make
the `batch_size = 0` loop exit, while `batch_size = 2` exits with fuel 4. -/
theorem c9_termination_witness :
    loopBatches 0 37 ([1, 2, 3] : List Nat) = none ∧
      (loopBatches 2 4 ([1, 2, 3] : List Nat)).isSome = true :=
  ⟨(c9_termination 2 [1, 2, 3]).1 (by decide) 37,
   (c9_termination 2 [1, 2, 3]).2 (by decide)⟩

/-- C4: on every terminating run, the trace of sink operations starts with the
single sink-opening event (the sink is opened in write/truncate mode exactly
once, before any batch is processed), contains exactly one write event per
batch (the sink is written only by the `result_func` calls), and ends with the
single sink-closing event (closed exactly once, after the last batch). -/
theorem c4_sink_discipline (map_func : α → β) (batch_size fuel : Nat)
    (paths : List α) (bs : List (List α)) (t : List (Ev β))
    (h : loopBatches batch_size fuel paths = some bs)
    (ht : procTrace map_func batch_size fuel paths = some t) :
    t.head? = some Ev.openSink ∧
      t.getLast? = some Ev.closeSink ∧
      t.countP Ev.isOpen = 1 ∧
      t.countP Ev.isClose = 1 ∧
      t.countP Ev.isWrite = bs.length := by
  rw [procTrace, loopTrace_eq_traceOf map_func batch_size fuel paths bs 0 h,
    Option.map_some'] at ht
  obtain rfl : t = Ev.openSink :: (traceOf map_func 0 bs ++ [Ev.closeSink]) :=
    (Option.some_inj.mp ht).symm
  refine ⟨rfl, ?_, ?_, ?_, ?_⟩
  · rw [← List.cons_append, List.getLast?_concat]
  · simp [List.countP_cons, List.countP_append, Ev.isOpen,
      traceOf_countP_isOpen]
  · simp [List.countP_cons, List.countP_append, Ev.isClose,
      traceOf_countP_isClose]
  · simp [List.countP_cons, List.countP_append, Ev.isWrite,
      traceOf_countP_isWrite]

/-- Witness for C4 at `paths = [7]`, `batch_size = 1`: one batch, so the trace
has one open, one write, one close, in that order. -/
theorem c4_sink_discipline_witness :
    ([Ev.openSink, Ev.dispatch 1, Ev.reduceCall 1 [7],
        Ev.closeSink] : List (Ev Nat)).head? = some Ev.openSink ∧
      ([Ev.openSink, Ev.dispatch 1, Ev.reduceCall 1 [7],
        Ev.closeSink] : List (Ev Nat)).getLast? = some Ev.closeSink ∧
      ([Ev.openSink, Ev.dispatch 1, Ev.reduceCall 1 [7],
        Ev.closeSink] : List (Ev Nat)).countP Ev.isOpen = 1 ∧
      ([Ev.openSink, Ev.dispatch 1, Ev.reduceCall 1 [7],
        Ev.closeSink] : List (Ev Nat)).countP Ev.isClose = 1 ∧
      ([Ev.openSink, Ev.dispatch 1, Ev.reduceCall 1 [7],
        Ev.closeSink] : List (Ev Nat)).countP Ev.isWrite =
        ([[7]] : List (List Nat)).length :=
  c4_sink_discipline (fun x : Nat => x) 1 1 [7] [[7]]
    [Ev.openSink, Ev.dispatch 1, Ev.reduceCall 1 [7], Ev.closeSink] rfl rfl

/-- C6 (amended): `generic_processor` does not fail fast on an empty
identifier list — the post-test loop still takes one empty batch, so with
`L = 0` the run produces exactly the single empty batch `[[]]` (and, per the
trace in the counterexample, the sink is opened and written before that).
What does hold is the second half of the claim restricted to the non-empty
case: for a non-empty list and positive batch size, no batch of size 0 is
ever processed. -/
theorem c6_no_empty_batches (batch_size fuel : Nat) (paths : List α)
    (bs : List (List α)) (hB : 0 < batch_size) (hfuel : 0 < fuel)
    (hne : paths ≠ []) (h : loopBatches batch_size fuel paths = some bs) :
    loopBatches batch_size fuel ([] : List α) = some [[]] ∧
      bs.all (fun b => !b.isEmpty) = true := by
  constructor
  · obtain ⟨fuel, rfl⟩ := Nat.exists_eq_succ_of_ne_zero (by omega : fuel ≠ 0)
    simp [loopBatches]
  · rw [List.all_eq_true]
    intro b hb
    have hb1 := loopBatches_batch_ne_nil batch_size fuel paths bs hB hne h b hb
    simp [List.isEmpty_iff, hb1]

/-- Witness for C6 at `paths = [1, 2, 3]`, `batch_size = 2`, fuel 2: the empty
list yields the single empty batch, and the batches `[[1, 2], [3]]` of the
non-empty run are all non-empty. -/
theorem c6_no_empty_batches_witness :
    loopBatches 2 2 ([] : List Nat) = some [[]] ∧
      ([[1, 2], [3]] : List (List Nat)).all (fun b => !b.isEmpty) = true :=
  c6_no_empty_batches 2 2 [1, 2, 3] [[1, 2], [3]] (by decide) (by decide)
    (by decide) rfl

/-- Counterexample to C6 as stated: at the empty identifier list the run does
not fail fast with a configuration error before opening the sink — the trace
shows the sink being opened, the parallel map being dispatched for one empty
batch, `result_func` being called with the empty collection, and the sink
being closed; a batch of size 0 is processed. -/
theorem c6_no_fail_fast_counterexample :
    procTrace (fun x : Nat => x) 1 1 ([] : List Nat) =
      some [Ev.openSink, Ev.dispatch 1, Ev.reduceCall 1 [], Ev.closeSink] :=
  rfl

/-- C10: on an empty identifier list `generic_processor` opens the sink,
executes exactly one iteration with an empty batch — dispatching the parallel
map over zero identifiers and calling `result_func` once with the empty result
collection — then closes the sink and returns normally, the final sink being
`result_func [] s` for initial sink state `s`. -/
theorem c10_empty_list_run (map_func : α → β) (result_func : List β → σ → σ)
    (batch_size fuel : Nat) (s : σ) (hfuel : 0 < fuel) :
    procTrace map_func batch_size fuel ([] : List α) =
      some [Ev.openSink, Ev.dispatch 1, Ev.reduceCall 1 [], Ev.closeSink] ∧
      loopReduce map_func result_func batch_size fuel ([] : List α) s =
        some (result_func [] s) := by
  obtain ⟨fuel, rfl⟩ := Nat.exists_eq_succ_of_ne_zero (by omega : fuel ≠ 0)
  constructor
  · simp [procTrace, loopTrace]
  · simp [loopReduce]

/-- Witness for C10 with the default batch size 1000 and a concrete reducer:
the trace is open-dispatch-reduce-close and the sink receives one reduction of
the empty collection. -/
theorem c10_empty_list_run_witness :
    procTrace (fun x : Nat => x) 1000 1 ([] : List Nat) =
      some [Ev.openSink, Ev.dispatch 1, Ev.reduceCall 1 [], Ev.closeSink] ∧
      loopReduce (fun x : Nat => x) (fun rs s => s + rs.length) 1000 1
        ([] : List Nat) 0 = some 0 :=
  c10_empty_list_run (fun x : Nat => x) (fun rs s => s + rs.length) 1000 1 0
    (by decide)

/-- C3: if the parallel map raises for some record of (0-based) batch `k`
while all earlier batches succeed, `generic_processor` does not catch or
suppress the error: the run aborts with that error and the sink contains
exactly the output written by the `result_func` calls of the `k` previously
completed batches (`foldSink`), with no retry. -/
theorem c3_error_propagation (map_func : α → Except ε β)
    (result_func : List β → σ → σ) (batch_size fuel : Nat) (paths : List α)
    (sink : σ) (bs : List (List α)) (k : Nat) (e : ε) (rs : Nat → List β)
    (hbs : loopBatches batch_size fuel paths = some bs)
    (hk : k < bs.length)
    (hok : ∀ j, j < k → (bs.getD j []).mapM map_func = Except.ok (rs j))
    (herr : (bs.getD k []).mapM map_func = Except.error e) :
    runBatches map_func result_func batch_size fuel paths sink =
      some (Except.error (e, foldSink result_func rs k sink)) := by
  induction fuel generalizing paths sink bs k rs with
  | zero => simp [loopBatches] at hbs
  | succ fuel ih =>
    simp only [loopBatches] at hbs
    simp only [runBatches]
    by_cases hr : (paths.drop batch_size).isEmpty
    · rw [if_pos hr] at hbs
      obtain rfl : bs = [paths.take batch_size] :=
        (Option.some_inj.mp hbs).symm
      obtain rfl : k = 0 := Nat.lt_one_iff.mp (by simpa using hk)
      rw [show ([paths.take batch_size].getD 0 []) = paths.take batch_size
        from rfl] at herr
      rw [herr]
      rfl
    · rw [if_neg hr] at hbs
      obtain ⟨bs1, hbs1, rfl⟩ := Option.map_eq_some'.mp hbs
      cases k with
      | zero =>
        rw [show ((paths.take batch_size :: bs1).getD 0 []) =
          paths.take batch_size from rfl] at herr
        rw [herr]
        rfl
      | succ k =>
        have h0 : (paths.take batch_size).mapM map_func =
            Except.ok (rs 0) := hok 0 (Nat.succ_pos k)
        rw [h0]
        show (if (List.drop batch_size paths).isEmpty = true
            then some (Except.ok (result_func (rs 0) sink))
            else runBatches map_func result_func batch_size fuel
              (List.drop batch_size paths) (result_func (rs 0) sink)) = _
        rw [if_neg hr]
        have hok1 : ∀ j, j < k →
            (bs1.getD j []).mapM map_func = Except.ok (rs (j + 1)) :=
          fun j hj => hok (j + 1) (by omega)
        have herr1 : (bs1.getD k []).mapM map_func = Except.error e := herr
        rw [ih (paths.drop batch_size) (result_func (rs 0) sink) bs1 k
          (fun j => rs (j + 1)) hbs1 (Nat.succ_lt_succ_iff.mp hk) hok1 herr1,
          foldSink_shift]

/-- Witness for C3: `map_func` fails on record 3; with `paths = [1, 2, 3, 4]`
and `batch_size = 2`, batch 0 (`[1, 2]`) completes and its output `[10, 20]`
is in the sink, batch 1 (`[3, 4]`) raises, and the run aborts with the error
and the sink holding exactly batch 0's output. -/
theorem c3_error_propagation_witness :
    runBatches (fun x : Nat => if x = 3 then Except.error () else
        Except.ok (x * 10)) (fun rs s => s ++ rs) 2 2 [1, 2, 3, 4] [] =
      some (Except.error ((), [10, 20])) :=
  c3_error_propagation
    (fun x : Nat => if x = 3 then Except.error () else Except.ok (x * 10))
    (fun rs s => s ++ rs) 2 2 [1, 2, 3, 4] [] [[1, 2], [3, 4]] 1 ()
    (fun _ => [10, 20]) rfl (by decide)
    (fun j hj => by
      obtain rfl : j = 0 := Nat.lt_one_iff.mp hj
      rfl)
    rfl

/-- C5: batches are strictly sequential with no overlap — in every run trace,
the `result_func` call of batch `k` (which performs all of batch `k`'s sink
writes) occurs strictly before the parallel map of batch `k + 1` is
dispatched. -/
theorem c5_batches_sequential (map_func : α → β) (batch_size fuel : Nat)
    (paths : List α) (t : List (Ev β)) (i j k : Nat) (rs : List β)
    (h : procTrace map_func batch_size fuel paths = some t)
    (hi : t[i]? = some (Ev.reduceCall k rs))
    (hj : t[j]? = some (Ev.dispatch (k + 1))) :
    i < j := by
  rw [procTrace] at h
  obtain ⟨tr, htr, rfl⟩ := Option.map_eq_some'.mp h
  rcases i with _ | i
  · simp at hi
  · rcases j with _ | j
    · simp at hj
    · rw [List.getElem?_cons_succ] at hi hj
      rcases getElem?_concat_cases tr Ev.closeSink _ i hi with hi1 | hi1
      · rcases getElem?_concat_cases tr Ev.closeSink _ j hj with hj1 | hj1
        · have e1 := loopTrace_reduce_pos map_func batch_size fuel 0 paths
            tr i k rs htr hi1
          have e2 := loopTrace_dispatch_pos map_func batch_size fuel 0 paths
            tr j (k + 1) htr hj1
          omega
        · simp at hj1
      · simp at hi1

/-- Witness for C5 at `paths = [5, 6]`, `batch_size = 1`: batch 1's reduce
call (trace position 2) precedes batch 2's dispatch (trace position 3). -/
theorem c5_batches_sequential_witness :
    procTrace (fun x : Nat => x) 1 2 [5, 6] =
      some [Ev.openSink, Ev.dispatch 1, Ev.reduceCall 1 [5], Ev.dispatch 2,
        Ev.reduceCall 2 [6], Ev.closeSink] ∧ (2 : Nat) < 3 :=
  ⟨rfl, c5_batches_sequential (fun x : Nat => x) 1 2 [5, 6]
    [Ev.openSink, Ev.dispatch 1, Ev.reduceCall 1 [5], Ev.dispatch 2,
      Ev.reduceCall 2 [6], Ev.closeSink] 2 3 1 [5] rfl rfl rfl⟩

/-- C7: the run is deterministic in its inputs — with the same (pure) mapping
and reducing functions, identifier list, batch size and initial sink state,
two runs against two different output paths produce identical sink contents
(the decompressed output), the output path influencing only the log. -/
theorem c7_output_path_independent (map_func : α → β)
    (result_func : List β → σ → σ) (outpath1 outpath2 : String)
    (paths : List α) (batch_size fuel : Nat) (init : σ) :
    (processorRun map_func result_func outpath1 paths batch_size fuel
        init).map Prod.fst =
      (processorRun map_func result_func outpath2 paths batch_size fuel
        init).map Prod.fst :=
  loopRunLog_fst_independent map_func result_func outpath1 outpath2
    batch_size fuel 0 paths init _ _

/-- C8: the caller's identifier list is never mutated — the loop only rebinds
its local name to slices — so after a completed run the caller's list equals
its value before the call. -/
theorem c8_caller_list_unchanged (map_func : α → β)
    (result_func : List β → σ → σ) (batch_size fuel : Nat)
    (st st1 : ProcState α σ)
    (h : genericProcessorState map_func result_func batch_size fuel st =
      some st1) :
    st1.callerPaths = st.callerPaths := by
  rw [genericProcessorState] at h
  obtain ⟨s, _, rfl⟩ := Option.map_eq_some'.mp h
  rfl

/-- Witness for C8 at `paths = [1, 2, 3]`, `batch_size = 2`: the run computes
a new sink but the caller's list is `[1, 2, 3]` before and after. -/
theorem c8_caller_list_unchanged_witness :
    (ProcState.mk [1, 2, 3] 3).callerPaths =
      (ProcState.mk ([1, 2, 3] : List Nat) (0 : Nat)).callerPaths :=
  c8_caller_list_unchanged (fun x : Nat => x)
    (fun rs s => s + rs.length) 2 2 (ProcState.mk [1, 2, 3] 0)
    (ProcState.mk [1, 2, 3] 3) rfl

end GenericProcessor
